import Mathlib

/-!
Verification of the cross-reference resolution and appendix-crawling engine of
`py3/converters/pdf_converter.py` and of the TSV row-id generator of
`tsv/TW2tsv.py`.

The Python code is shallowly embedded: dictionaries become insertion-ordered
association lists (Python dicts preserve insertion order), `None`/`''` falsiness
is modelled explicitly, and code that can raise returns `Except PyErr`.
`ResourceContainerLink` (`rc_link.py`) is not part of the sources; the few
facts about it that the engine needs (canonical string, resource kind,
deterministic anchor id, accumulated back-references) are modelled from the
specification and marked as such.
-/

namespace PdfConv

/-- Python exception classes raised by the modelled code paths. -/
inductive PyErr where
  | typeError
  | valueError
  | attributeError
deriving DecidableEq

deriving instance DecidableEq for Except

/-- Python truthiness of an optional string: `None` and `''` are both falsy. -/
def pyTruthy : Option String → Bool
  | none => false
  | some s => s ≠ ""

/-- Lookup in an insertion-ordered association list (Python `d[k]` / `k in d`). -/
def lookupA {α : Type} : List (String × α) → String → Option α
  | [], _ => none
  | (k, v) :: rest, key => if k = key then some v else lookupA rest key

/-- Update the value stored at an existing key, keeping its position
(Python's in-place mutation of a value object held in a dict). -/
def updateA {α : Type} : List (String × α) → String → (α → α) → List (String × α)
  | [], _, _ => []
  | (k, v) :: rest, key, f =>
      if k = key then (k, f v) :: rest else (k, v) :: updateA rest key f

/-- Python dict assignment `d[k] = v`: overwrite in place if the key exists,
append otherwise. -/
def setA {α : Type} : List (String × α) → String → α → List (String × α)
  | [], key, v => [(key, v)]
  | (k, w) :: rest, key, v =>
      if k = key then (k, v) :: rest else (k, w) :: setA rest key v

/-- The keys of an association list, in insertion order. -/
def keysA {α : Type} (l : List (String × α)) : List String := l.map Prod.fst

/-- Python `sorted()` on strings: a stable ascending sort by the lexicographic
order on code points. -/
def pysorted (l : List String) : List String := List.insertionSort (· ≤ ·) l

/-- Split a character list at every occurrence of a separator character
(`str.split(sep)` for a one-character separator, empty pieces preserved). -/
def splitOnChar (sep : Char) (acc : List Char) : List Char → List String
  | [] => [acc.asString]
  | c :: cs =>
      if c = sep then acc.asString :: splitOnChar sep [] cs
      else splitOnChar sep (acc ++ [c]) cs

/-- Python `not part.strip()`: the string is empty or all whitespace. -/
def pyStripEmpty (s : String) : Bool := s.toList.all Char.isWhitespace

/-! ## The Bad-Link Ledger (`self.bad_links`) -/

/-- `self.bad_links`: a dict from the canonical string of the referencing link
to a dict from the canonical string of the target link to an optional
suggested-fix link, both in insertion order. -/
abbrev BadLinks := List (String × List (String × Option String))

/-- `add_bad_link` (pdf_converter.py lines 142-147).  `source` is the canonical
link of the referencing article (`None` makes the call a no-op, per the
`if source_rc:` guard); a fix, when present, is a non-empty canonical link, so
Python's `or fix` truthiness test is `fix.isSome`. -/
def add_bad_link (bl : BadLinks) (source : Option String) (target : String)
    (fix : Option String) : BadLinks :=
  match source with
  | none => bl
  | some s =>
      let bl1 := if (lookupA bl s).isSome then bl else bl ++ [(s, [])]
      let inner := (lookupA bl1 s).getD []
      if (lookupA inner target).isNone || fix.isSome then
        updateA bl1 s (fun m => setA m target fix)
      else bl1

/-- Whether the ledger has an entry for the pair (referencing link, target). -/
def hasEntry (bl : BadLinks) (s t : String) : Bool :=
  (lookupA ((lookupA bl s).getD []) t).isSome

/-- The recorded value (the optional suggested fix) of a ledger entry. -/
def entryVal (bl : BadLinks) (s t : String) : Option (Option String) :=
  lookupA ((lookupA bl s).getD []) t

/-! ## Bad-link report (`save_bad_links_html`, lines 260-283) -/

/-- The inner keys of a ledger entry (the recorded target links of one source). -/
def innerKeys (bl : BadLinks) (s : String) : List String :=
  keysA ((lookupA bl s).getD [])

/-- One `<li>` line of the bad-links report: the referencing link, the target,
and — when the recorded fix is truthy — the suggested replacement. -/
def bad_link_line (source target : String) (fix : Option String) : String :=
  let line := "<li>" ++ source ++ ": BAD RC - `" ++ target ++ "`"
  let line := if pyTruthy fix then line ++ " - change to `" ++ fix.getD "" ++ "`" else line
  line ++ "</li>\n"

/-- The `<li>` lines of the report: sources in `sorted()` order, and for each
source its targets in `sorted()` order (the two nested loops of lines 268-273). -/
def bad_links_list_html (bl : BadLinks) : String :=
  String.join ((pysorted (keysA bl)).map (fun s =>
    String.join ((pysorted (innerKeys bl s)).map (fun t =>
      bad_link_line s t (entryVal bl s t).join))))

/-- The body of the bad-links page (`save_bad_links_html` before templating):
`'NO BAD LINKS!'` for an empty (falsy) ledger, otherwise a header, the sorted
`<li>` lines and a footer. -/
def save_bad_links_body (bl : BadLinks) : String :=
  if bl.isEmpty then "NO BAD LINKS!"
  else "\n<h1>BAD LINKS</h1>\n<ul>\n" ++ bad_links_list_html bl ++ "\n</ul>\n"

/-! ## TOC owner lookup (`get_rc_by_article_id`, lines 355-358) -/

/-- Placeholder for the article-record type used by the crawler below; forward
declared here only for ordering of this file. -/
structure RcRecord where
  rc_link : String
  resource : String
  linking_level : Nat
  article : String := ""
  references : List String := []
  article_id : String := ""
  title : String := ""
deriving DecidableEq

/-- `get_rc_by_article_id` (lines 355-358).  The source reads
`for rc_link, rc in self.all_rcs:` — iterating a dict yields its KEYS, so each
canonical-link string key is tuple-unpacked: a key whose length is not 2 raises
`ValueError` (too many/not enough values to unpack), and a length-2 key binds
`rc` to a character, whose `.article_id` access raises `AttributeError`.  The
loop therefore raises on its first iteration whenever `all_rcs` is non-empty,
and falls through to an implicit `None` when it is empty. -/
def get_rc_by_article_id (all_rcs : List (String × RcRecord)) (article_id : String) :
    Except PyErr (Option RcRecord) :=
  match all_rcs with
  | [] => .ok none
  | (key, _) :: _ =>
      if key.length = 2 then .error .attributeError else .error .valueError

/-! ## TSV row-id generation (`TW2tsv.py`, `make_TSV_file` lines 172-180) -/

/-- `random.choice('abcdefghijklmnopqrstuvwxyz')` pool. -/
def ID_FIRST_CHARS : List Char := "abcdefghijklmnopqrstuvwxyz".toList

/-- `random.choice('abcdefghijklmnopqrstuvwxyz0123456789')` pool. -/
def ID_NEXT_CHARS : List Char := "abcdefghijklmnopqrstuvwxyz0123456789".toList

/-- `random.choice(pool)` with the randomness supplied as a natural number;
the draw is reduced modulo the pool size so any supplied number picks a pool
element. -/
def pychoice (pool : List Char) (r : Nat) : Char := pool.getD (r % pool.length) 'a'

/-- One candidate id: a lowercase letter followed by three characters drawn
from lowercase letters and digits (line 177). -/
def gen_attempt (r1 r2 r3 r4 : Nat) : String :=
  [pychoice ID_FIRST_CHARS r1, pychoice ID_NEXT_CHARS r2,
   pychoice ID_NEXT_CHARS r3, pychoice ID_NEXT_CHARS r4].asString

/-- The `while generated_id in previous_ids:` loop (lines 175-177): regenerate
until the candidate differs from every previously generated id.  `generated_id`
starts as `''`, which is always in `previous_ids`, so at least one draw is
made; the stream of random draws (one 4-tuple per attempt) is explicit and the
loop fails (`none`) only if the stream is exhausted. -/
def gen_id (prev : List String) : List (Nat × Nat × Nat × Nat) →
    Option (String × List (Nat × Nat × Nat × Nat))
  | [] => none
  | (r1, r2, r3, r4) :: rest =>
      let gid := gen_attempt r1 r2 r3 r4
      if gid ∈ prev then gen_id prev rest else some (gid, rest)

/-- The id-generating skeleton of the row loop of `make_TSV_file` (lines
172-180): each row draws a fresh id and appends it to `previous_ids`. -/
def make_ids (prev : List String) : Nat → List (Nat × Nat × Nat × Nat) →
    Option (List String)
  | 0, _ => some []
  | n + 1, rands =>
      match gen_id prev rands with
      | some (gid, rest) =>
          match make_ids (prev ++ [gid]) n rest with
          | some ids => some (gid :: ids)
          | none => none
      | none => none

/-- All row ids of one produced TSV file: `previous_ids` starts as `['']`
(line 172). -/
def make_TSV_ids (rows : Nat) (rands : List (Nat × Nat × Nat × Nat)) :
    Option (List String) :=
  make_ids [""] rows rands

/-- The shape of a generated row id: 4 characters, a lowercase letter first,
then lowercase letters or digits. -/
def validIdFormat (gid : String) : Prop :=
  gid.length = 4 ∧ gid.toList.headD ' ' ∈ ID_FIRST_CHARS ∧
    ∀ c ∈ gid.toList.tail, c ∈ ID_NEXT_CHARS

instance (gid : String) : Decidable (validIdFormat gid) := by
  unfold validIdFormat; infer_instance

/-! ## The appendix crawler (`crawl_ta_tw_deep_linking`, lines 634-671)

`RcRecord` (declared above) models a `ResourceContainerLink`: the class itself
(`rc_link.py`) is not among the sources, so its fields are modelled from the
spec (§3): an owning canonical link string, a resource kind, a linking depth,
a rendered body (Python's falsy `None` and `''` are both modelled as `""`),
accumulated back-references, a deterministic anchor id and a title. -/

/-- `APPENDIX_LINKING_LEVEL = 1` (line 40).  The crawler below takes the level
as a parameter `alevel` — the "configured maximum depth D" of the spec — and
the constant instantiates it. -/
def APPENDIX_LINKING_LEVEL : Nat := 1

/-- `APPENDIX_RESOURCES = ['ta', 'tw']` (line 41). -/
def APPENDIX_RESOURCES : List String := ["ta", "tw"]

/-- Modelled from the spec: the anchor id is "derived deterministically from
the Link so it is stable across runs" (§3); we derive it from the canonical
string by dropping the scheme and joining the segments with dashes. -/
def articleIdOf (canonical : String) : String :=
  ((canonical.drop 5).toList.map (fun c => if c = '/' then '-' else c)).asString

/-- Modelled from the spec: `ResourceContainerLink(rc_link, linking_level=n)`
followed by `rc.lang_code = self.lang_code` (line 646) — the link is parsed
into scheme-language / resource-kind / path, the language is forced to the
build's language, and the canonical string is re-derived (§3, Glossary). -/
def mkRc (lang : String) (link : String) (level : Nat) : RcRecord :=
  let segs := splitOnChar '/' [] (link.drop 5).toList
  let canonical := "rc://" ++ lang ++ "/" ++ String.intercalate "/" (segs.drop 1)
  { rc_link := canonical
    resource := (segs.drop 1).headD ""
    linking_level := level
    article_id := articleIdOf canonical }

/-- Modelled from the spec: `rc.add_reference(source_rc)` — back-references are
a set that accumulates and never shrinks (§3), so the source is appended when
not already present. -/
def addReference (r : RcRecord) (src : String) : RcRecord :=
  if src ∈ r.references then r else { r with references := r.references ++ [src] }

/-- One character of the first link segment in
`rc://[A-Z0-9_\*-]+/(?:ta|tw)/[A-Z0-9/_\*-]+` with `re.IGNORECASE`. -/
def isLinkChar1 (c : Char) : Bool := c.isAlpha || c.isDigit || c = '_' || c = '*' || c = '-'

/-- One character of the trailing path of the same pattern (also allows `/`). -/
def isLinkChar2 (c : Char) : Bool := isLinkChar1 c || c = '/'

/-- Try to match the `re.findall` pattern of line 642,
`rc://[A-Z0-9_\*-]+/(?:ta|tw)/[A-Z0-9/_\*-]+` (case-insensitive), at the head
of the text; on success return the whole match and the rest of the text. -/
def parseRcLink (cs : List Char) : Option (String × List Char) :=
  match cs with
  | c1 :: c2 :: ':' :: '/' :: '/' :: rest =>
      if (c1 = 'r' ∨ c1 = 'R') ∧ (c2 = 'c' ∨ c2 = 'C') then
        let seg1 := rest.takeWhile isLinkChar1
        match rest.drop seg1.length with
        | '/' :: t1 :: t2 :: '/' :: rest2 =>
            if ((t1 = 't' ∨ t1 = 'T') ∧ (t2 = 'a' ∨ t2 = 'A' ∨ t2 = 'w' ∨ t2 = 'W'))
                ∧ seg1 ≠ [] then
              let seg2 := rest2.takeWhile isLinkChar2
              if seg2 = [] then none
              else some ((c1 :: c2 :: ':' :: '/' :: '/' ::
                            (seg1 ++ '/' :: t1 :: t2 :: '/' :: seg2)).asString,
                         rest2.drop seg2.length)
            else none
        | _ => none
      else none
  | _ => none

/-- The scan of `re.findall` (line 642): leftmost, non-overlapping matches.
The fuel is the length of the text; every step consumes at least one
character, so it never runs out early. -/
def findRcLinksGo : Nat → List Char → List String
  | 0, _ => []
  | _, [] => []
  | fuel + 1, c :: cs =>
      match parseRcLink (c :: cs) with
      | some (link, rest) => link :: findRcLinksGo fuel rest
      | none => findRcLinksGo fuel cs

/-- `rc_links = re.findall(r'rc://[A-Z0-9_\*-]+/(?:ta|tw)/[A-Z0-9/_\*-]+', ...)`
over an article body. -/
def findRcLinks (article : String) : List String :=
  findRcLinksGo article.length article.toList

/-- The converter state that the crawler reads and writes: the primary mapping
`self.rcs`, the appendix mapping `self.appendix_rcs`, the Bad-Link Ledger
`self.bad_links`, and — as specification-only instrumentation — the list of
canonical links for which an article fetch (`get_ta_article_html` /
`get_tw_article_html`) was attempted. -/
structure CrawlState where
  rcs : List (String × RcRecord)
  appendix_rcs : List (String × RcRecord) := []
  bad_links : BadLinks := []
  fetch_log : List String := []
deriving DecidableEq

/-- The duplicate/cycle guard of lines 647-655: the link is already present in
one of the two mappings, so its record is merged in place — the depth is
lowered to `source.linking_level + 1` when that is smaller, the source is
added as a back-reference, and nothing is fetched. -/
def mergeRc (st : CrawlState) (source : RcRecord) (key : String) : CrawlState :=
  let upd := fun (r : RcRecord) =>
    addReference
      { r with linking_level :=
          if source.linking_level + 1 < r.linking_level then source.linking_level + 1
          else r.linking_level }
      source.rc_link
  if (lookupA st.rcs key).isSome then { st with rcs := updateA st.rcs key upd }
  else { st with appendix_rcs := updateA st.appendix_rcs key upd }

/-- Recording a failed fetch: `self.add_bad_link(source_rc, rc)` (line 671;
`get_ta_article_html` records the same pair on its failure path, which the
idempotent `add_bad_link` collapses, and `get_tw_article_html`'s failure path
writes the same entry by hand, lines 800-804). -/
def stAddBad (st : CrawlState) (source rc : RcRecord) : CrawlState :=
  { st with bad_links := add_bad_link st.bad_links (some source.rc_link) rc.rc_link none }

/-- The per-link loop body of `crawl_ta_tw_deep_linking` (lines 643-671).
`env` abstracts the external content provider consulted by
`get_ta_article_html` / `get_tw_article_html` (their repository file reads,
including the fallback lookups): it yields the processed article body for a
canonical link, or `none` when no file is found.  `recur` is the recursive
call made on a newly inserted article (line 669). -/
def crawlLinksAux (lang : String) (env : String → Option String)
    (recur : RcRecord → CrawlState → CrawlState) (source : RcRecord) :
    List String → CrawlState → CrawlState
  | [], st => st
  | link :: rest, st =>
      let rc := mkRc lang link (source.linking_level + 1)
      if (lookupA st.rcs rc.rc_link).isSome || (lookupA st.appendix_rcs rc.rc_link).isSome then
        crawlLinksAux lang env recur source rest (mergeRc st source rc.rc_link)
      else if rc.resource ∉ APPENDIX_RESOURCES then
        crawlLinksAux lang env recur source rest st
      else
        let art := (env rc.rc_link).getD ""
        let st1 := { st with fetch_log := st.fetch_log ++ [rc.rc_link] }
        if art ≠ "" then
          let rc := { rc with article := art }
          let st2 := { st1 with appendix_rcs := st1.appendix_rcs ++ [(rc.rc_link, rc)] }
          crawlLinksAux lang env recur source rest (recur rc st2)
        else
          crawlLinksAux lang env recur source rest (stAddBad st1 source rc)

/-- The recursion of `crawl_ta_tw_deep_linking`, driven by the remaining depth
budget: at gas `0` the entry guard `linking_level > APPENDIX_LINKING_LEVEL + 1`
has fired and the call returns immediately; otherwise the whole body of the
source article is scanned, each newly inserted article recursing with one unit
less.  `crawl_ta_tw_deep_linking` below supplies gas `alevel + 2 - level`,
which makes this exactly the source's guard (proved in
`crawl_ta_tw_deep_linking_eq`). -/
def crawlGo (lang : String) (env : String → Option String) :
    Nat → RcRecord → CrawlState → CrawlState
  | 0, _, st => st
  | gas + 1, source, st =>
      crawlLinksAux lang env (crawlGo lang env gas) source (findRcLinks source.article) st

/-- `crawl_ta_tw_deep_linking(source_rc)` (lines 638-671), with the configured
level as parameter `alevel` (the constant `APPENDIX_LINKING_LEVEL` in the
source). -/
def crawl_ta_tw_deep_linking (alevel : Nat) (lang : String) (env : String → Option String)
    (source : RcRecord) (st : CrawlState) : CrawlState :=
  crawlGo lang env (alevel + 2 - source.linking_level) source st

/-- `get_appendix_rcs` (lines 634-636): crawl from every primary article.  The
dict's keys are snapshotted, but each record is re-read from the current state
(Python iterates the live value objects, which earlier iterations may have
merged into). -/
def get_appendix_rcs (alevel : Nat) (lang : String) (env : String → Option String)
    (st : CrawlState) : CrawlState :=
  (keysA st.rcs).foldl
    (fun s k =>
      match lookupA s.rcs k with
      | some r => crawl_ta_tw_deep_linking alevel lang env r s
      | none => s)
    st

/-- The combined view used for lookups during a crawl: the primary mapping is
consulted first (lines 648-651). -/
def lookupRc (st : CrawlState) (key : String) : Option RcRecord :=
  match lookupA st.rcs key with
  | some r => some r
  | none => lookupA st.appendix_rcs key

/-- Registry disjointness, stated over the finitely many primary keys: no
canonical link string is a key of both mappings. -/
def stateDisjoint (st : CrawlState) : Prop :=
  ∀ k ∈ keysA st.rcs, lookupA st.appendix_rcs k = none

instance (st : CrawlState) : Decidable (stateDisjoint st) := by
  unfold stateDisjoint; infer_instance

/-! ## The link rewriter (`replace_rc_links` / `replace_rc`, lines 573-613)

The pattern of line 611 is
`(\[\[|<a[^>]+href=")*(rc://[/A-Za-z0-9\*_-]+)(\]\]|"[^>]*>(.*?)</a>)*`
(no flags, so case-sensitive, and `.` does not match a newline).  A starred
group captures its last repetition, and an inner group keeps the value of its
last successful capture across later repetitions. -/

/-- One match of the pattern: the captures of groups 1-4.  `none` is a group
that never participated (Python `None`). -/
structure RcMatch where
  left : Option String
  rc_link : String
  right : Option String
  title : Option String
deriving DecidableEq

/-- A piece of the scanned text: either unmatched text or one match together
with the exact text it consumed. -/
inductive RcPiece where
  | gap (s : String)
  | hit (consumed : String) (m : RcMatch)
deriving DecidableEq

/-- `[/A-Za-z0-9\*_-]` — one character of group 2 after the literal `rc://`. -/
def isRcLinkChar (c : Char) : Bool :=
  c.isAlpha || c.isDigit || c = '/' || c = '*' || c = '_' || c = '-'

/-- `<a[^>]+href="`: after `<a`, the greedy `[^>]+` backtracks to the last
position inside the run of non-`>` characters at which the literal `href="`
follows.  Returns the consumed characters and the rest. -/
def parseATag (cs : List Char) : Option (List Char × List Char) :=
  match cs with
  | '<' :: 'a' :: rest =>
      let run := rest.takeWhile (· ≠ '>')
      match ((List.range (run.length + 1)).reverse.find? (fun k =>
          decide (1 ≤ k) && List.isPrefixOf "href=\"".toList (run.drop k))) with
      | some k => some ('<' :: 'a' :: (run.take k ++ "href=\"".toList), rest.drop (k + 6))
      | none => none
  | _ => none

/-- The starred group 1, `(\[\[|<a[^>]+href=")*`: repeatedly consume `[[` or an
`<a...href="` opener; the capture is the last repetition.  Fuel is the text
length (every repetition consumes at least two characters). -/
def parseLeftStar : Nat → List Char → List Char × Option String × List Char
  | 0, cs => ([], none, cs)
  | fuel + 1, cs =>
      match cs with
      | '[' :: '[' :: rest =>
          let (c2, cap2, rest2) := parseLeftStar fuel rest
          ('[' :: '[' :: c2, some (cap2.getD "[["), rest2)
      | _ =>
          match parseATag cs with
          | some (consumed, rest) =>
              let (c2, cap2, rest2) := parseLeftStar fuel rest
              (consumed ++ c2, some (cap2.getD consumed.asString), rest2)
          | none => ([], none, cs)

/-- The non-greedy `(.*?)</a>` tail of group 3's second alternative: the
shortest prefix containing no newline (`.` does not match `\n`) followed by the
literal `</a>`.  Returns the title characters and the rest. -/
def findCloseA : List Char → Option (List Char × List Char)
  | [] => none
  | c :: cs =>
      if List.isPrefixOf "</a>".toList (c :: cs) then some ([], (c :: cs).drop 4)
      else if c = '\n' then none
      else
        match findCloseA cs with
        | some (t, r) => some (c :: t, r)
        | none => none

/-- The second alternative of group 3, `"[^>]*>(.*?)</a>`: a quote, a greedy
run of non-`>` characters, a `>`, then the non-greedy title up to `</a>`.
Returns (consumed, title capture, rest). -/
def parseAnchorSuffix (cs : List Char) : Option (List Char × String × List Char) :=
  match cs with
  | '"' :: rest =>
      let run := rest.takeWhile (· ≠ '>')
      match rest.drop run.length with
      | '>' :: rest2 =>
          match findCloseA rest2 with
          | some (t, rest3) =>
              some ('"' :: (run ++ '>' :: (t ++ "</a>".toList)), t.asString, rest3)
          | none => none
      | _ => none
  | _ => none

/-- The starred group 3, `(\]\]|"[^>]*>(.*?)</a>)*`, together with the inner
group 4: captures are those of the last repetition, and group 4 keeps its last
captured value even when a later repetition matches the `]]` alternative. -/
def parseRightStar : Nat → List Char → List Char × Option String × Option String × List Char
  | 0, cs => ([], none, none, cs)
  | fuel + 1, cs =>
      match cs with
      | ']' :: ']' :: rest =>
          let (c2, cap2, tit2, rest2) := parseRightStar fuel rest
          (']' :: ']' :: c2, some (cap2.getD "]]"), tit2, rest2)
      | _ =>
          match parseAnchorSuffix cs with
          | some (consumed, title, rest) =>
              let (c2, cap2, tit2, rest2) := parseRightStar fuel rest
              (consumed ++ c2, some (cap2.getD consumed.asString),
               some (tit2.getD title), rest2)
          | none => ([], none, none, cs)

/-- Try the whole pattern at the current position: optional openers, the
mandatory `rc://` link of group 2, then optional closers.  On success returns
the consumed text, the captures, and the rest. -/
def parseRcMatch (cs : List Char) : Option (String × RcMatch × List Char) :=
  let (lc, lcap, rest) := parseLeftStar cs.length cs
  match rest with
  | 'r' :: 'c' :: ':' :: '/' :: '/' :: rest1 =>
      let body := rest1.takeWhile isRcLinkChar
      if body = [] then none
      else
        let rest2 := rest1.drop body.length
        let (rcons, rcap, tcap, rest3) := parseRightStar rest2.length rest2
        some ((lc ++ ("rc://".toList ++ (body ++ rcons))).asString,
              { left := lcap, rc_link := ("rc://".toList ++ body).asString,
                right := rcap, title := tcap },
              rest3)
  | _ => none

/-- The `re.sub` scan: leftmost, non-overlapping matches; unmatched characters
pass through as gaps.  Fuel is the text length (every step consumes at least
one character). -/
def tokenizeRcGo : Nat → List Char → List RcPiece
  | 0, cs => if cs.isEmpty then [] else [.gap cs.asString]
  | _, [] => []
  | fuel + 1, c :: cs =>
      match parseRcMatch (c :: cs) with
      | some (consumed, m, rest) => .hit consumed m :: tokenizeRcGo fuel rest
      | none => .gap ([c].asString) :: tokenizeRcGo fuel cs

/-- The pieces of a text under the scan of `replace_rc_links`. -/
def tokenizeRc (text : String) : List RcPiece := tokenizeRcGo text.length text.toList

/-- The matches among a list of pieces, in order. -/
def piecesMatches (ps : List RcPiece) : List RcMatch :=
  ps.filterMap (fun p =>
    match p with
    | .hit _ m => some m
    | .gap _ => none)

/-- The matches of a text, in order. -/
def rcMatches (text : String) : List RcMatch :=
  piecesMatches (tokenizeRc text)

/-- `replace_rc` (lines 573-608), the substitution callback.  The branches
mirror the source: a resolved `[[..]]` or bare link becomes an anchor (or the
plain title beyond `APPENDIX_LINKING_LEVEL`); otherwise a resolved target with
a body rebuilds `left + rc.article_id + right`, which raises `TypeError` when
either capture is Python `None`; a resolved target without a body and an
unresolved target fall back to the captured title or the raw link. -/
def replace_rc (all_rcs : List (String × RcRecord)) (m : RcMatch) : Except PyErr String :=
  match lookupA all_rcs m.rc_link with
  | some rc =>
      if (pyTruthy m.left && pyTruthy m.right && m.left == some "[[" && m.right == some "]]")
          || (!pyTruthy m.left && !pyTruthy m.right) then
        if rc.linking_level ≤ APPENDIX_LINKING_LEVEL then
          .ok ("<a href=\"#" ++ rc.article_id ++ "\">" ++ rc.title ++ "</a>")
        else
          .ok rc.title
      else
        if rc.article ≠ "" then
          match m.left, m.right with
          | some l, some r => .ok (l ++ rc.article_id ++ r)
          | _, _ => .error .typeError
        else
          .ok (if pyTruthy m.title then m.title.getD "" else rc.title)
  | none => .ok (if pyTruthy m.title then m.title.getD "" else m.rc_link)

/-- Substitute every match of a piece list, propagating the first raised
exception (as `re.sub` does). -/
def renderPieces (all_rcs : List (String × RcRecord)) : List RcPiece → Except PyErr String
  | [] => .ok ""
  | .gap s :: rest => (renderPieces all_rcs rest).map (s ++ ·)
  | .hit _ m :: rest =>
      match replace_rc all_rcs m with
      | .ok out => (renderPieces all_rcs rest).map (out ++ ·)
      | .error e => .error e

/-- `replace_rc_links` (lines 610-613).  The method reads `self.all_rcs` only;
`self.bad_links` is never written here, so the ledger is returned unchanged. -/
def replace_rc_links (all_rcs : List (String × RcRecord)) (bl : BadLinks)
    (text : String) : Except PyErr (String × BadLinks) :=
  (renderPieces all_rcs (tokenizeRc text)).map (fun s => (s, bl))

/-- Reassemble the pieces with one externally supplied output per match. -/
def renderWith : List RcPiece → List String → String
  | [], _ => ""
  | .gap s :: rest, outs => s ++ renderWith rest outs
  | .hit _ _ :: rest, out :: outs => out ++ renderWith rest outs
  | .hit _ _ :: rest, [] => renderWith rest []

/-- A match whose delimiters are properly paired: `[[..]]`, bare, or an
anchor-href opener with an anchor closer. -/
def wellFormedMatch (m : RcMatch) : Prop :=
  (m.left = some "[[" ∧ m.right = some "]]") ∨ (m.left = none ∧ m.right = none) ∨
    (m.left.isSome ∧ List.isPrefixOf "<a".toList (m.left.getD "").toList ∧
      m.right.isSome ∧ List.isPrefixOf "\"".toList (m.right.getD "").toList)

instance (m : RcMatch) : Decidable (wellFormedMatch m) := by
  unfold wellFormedMatch; infer_instance

/-! ## The phrase highlighter (`highlight_text` / `highlight_text_with_phrases`,
lines 476-532)

On Python ≥ 3.7 `re.escape` leaves spaces unescaped, so the substitution
`re.sub('(\\\\ +)', ...)` of line 485 never fires and both branches of the
`'<span' in text` test build the same pattern: the literal phrase part followed
by the lookahead `(?![^<]*>)` ("don't match within HTML tags").  The failure
path of `highlight_text_with_phrases` (lines 509-531) only records
quote-variant notes into `self.bad_links` and never changes the returned text,
so it is not part of the text-level model. -/

/-- The delimiter `\s*…\s*|\s*\.\.\.\s*` of `re.split` (line 477), tried at one
position: maximal whitespace, an ellipsis core, maximal whitespace; returns the
matched length.  (`Char.isWhitespace` stands in for Python's `\s`.) -/
def matchEllipsisDelim (cs : List Char) : Option Nat :=
  let w := (cs.takeWhile Char.isWhitespace).length
  match cs.drop w with
  | '…' :: r2 => some (w + 1 + (r2.takeWhile Char.isWhitespace).length)
  | '.' :: '.' :: '.' :: r2 => some (w + 3 + (r2.takeWhile Char.isWhitespace).length)
  | _ => none

/-- The scan of `re.split` on the ellipsis delimiter: leftmost matches split
the phrase into parts.  Fuel is the phrase length plus one. -/
def splitEllipsisGo : Nat → List Char → List Char → List String
  | 0, acc, cs => [(acc ++ cs).asString]
  | _, acc, [] => [acc.asString]
  | fuel + 1, acc, c :: cs =>
      match matchEllipsisDelim (c :: cs) with
      | some n => acc.asString :: splitEllipsisGo fuel [] ((c :: cs).drop n)
      | none => splitEllipsisGo fuel (acc ++ [c]) cs

/-- `parts = re.split(r'\s*…\s*|\s*\.\.\.\s*', phrase)` (line 477). -/
def splitEllipsisParts (phrase : String) : List String :=
  splitEllipsisGo (phrase.length + 1) [] phrase.toList

/-- The lookahead `[^<]*>`: does a `>` occur before any `<`?  The negative
lookahead `(?![^<]*>)` of line 488 succeeds exactly when this is `false`. -/
def lookaheadInTag : List Char → Bool
  | [] => false
  | '>' :: _ => true
  | '<' :: _ => false
  | _ :: cs => lookaheadInTag cs

/-- `re.split(split_pattern, to_process_text, 1)`: find the first literal
occurrence of the part that is not inside an HTML tag; return the text before
it and the text after it. -/
def findSplitGo (part : List Char) (acc : List Char) :
    List Char → Option (List Char × List Char)
  | [] =>
      if List.isPrefixOf part [] && !lookaheadInTag (List.drop part.length []) then
        some (acc, [])
      else none
  | c :: cs =>
      if List.isPrefixOf part (c :: cs) && !lookaheadInTag ((c :: cs).drop part.length) then
        some (acc, (c :: cs).drop part.length)
      else findSplitGo part (acc ++ [c]) cs

/-- `<span class="{classes}">{s}</span>` (line 495). -/
def wrapSpan (classes s : String) : String :=
  "<span class=\"" ++ classes ++ "\">" ++ s ++ "</span>"

/-- The per-part loop of `highlight_text` (lines 480-497), threading
`(processed_text, to_process_text)`: a blank part is skipped; a part that is
not found appends the whole remaining text to the processed text and leaves
the remaining text unchanged (the source updates `to_process_text` only when a
match occurred); a found part advances past its wrapped first occurrence. -/
def highlightParts (classes : String) : List String → String × String → String × String
  | [], pt => pt
  | part :: rest, (processed, to_process) =>
      if pyStripEmpty part then highlightParts classes rest (processed, to_process)
      else
        match findSplitGo part.toList [] to_process.toList with
        | none => highlightParts classes rest (processed ++ to_process, to_process)
        | some (before, after) =>
            highlightParts classes rest
              (processed ++ before.asString ++ wrapSpan classes part, after.asString)

/-- `highlight_text(text, phrase)` (lines 476-500). -/
def highlight_text (text phrase : String) : String :=
  let parts := splitEllipsisParts phrase
  let classes := if parts.length > 1 then "highlight split" else "highlight"
  let (processed, to_process) := highlightParts classes parts ("", text)
  processed ++ to_process

/-- `phrases.sort(key=len, reverse=True)` (line 504): a stable sort into
length-descending order. -/
def sortPhrasesDesc (phrases : List String) : List String :=
  List.insertionSort (fun a b => b.length ≤ a.length) phrases

instance : IsTotal String (fun a b => b.length ≤ a.length) :=
  ⟨fun a b => Nat.le_total b.length a.length⟩

instance : IsTrans String (fun a b => b.length ≤ a.length) :=
  ⟨fun _ _ _ hab hbc => Nat.le_trans hbc hab⟩

/-- `highlight_text_with_phrases` (lines 502-532), text result only: sort the
phrases longest-first and highlight each in turn; when a phrase changes
nothing the text is kept (the source then only records a bad-link note, which
does not alter the returned text). -/
def highlight_text_with_phrases (orig_text : String) (phrases : List String) : String :=
  (sortPhrasesDesc phrases).foldl
    (fun cur phrase =>
      let nw := highlight_text cur phrase
      if nw ≠ cur then nw else cur)
    orig_text

/-! ## Concrete fixtures used by counterexamples and witnesses -/

/-- A four-article content provider: primary articles `p1`, `p2` link to `a`
resp. `b`, `a` links to `b`, `b` links to `c`, and `c` has no outgoing links. -/
def c2Env : String → Option String := fun k =>
  if k = "rc://en/ta/man/a" then some "[[rc://en/ta/man/b]]"
  else if k = "rc://en/ta/man/b" then some "[[rc://en/ta/man/c]]"
  else if k = "rc://en/ta/man/c" then some "<p>c</p>"
  else none

/-- A primary article record at linking level 0. -/
def c2Primary (k a : String) : RcRecord :=
  { rc_link := k, resource := "ta", linking_level := 0, article := a,
    article_id := articleIdOf k }

/-- Primary registry with `p1` (linking to `a`) iterated before `p2`
(linking to `b`). -/
def c2StA : CrawlState :=
  { rcs := [("rc://en/ta/man/p1", c2Primary "rc://en/ta/man/p1" "[[rc://en/ta/man/a]]"),
            ("rc://en/ta/man/p2", c2Primary "rc://en/ta/man/p2" "[[rc://en/ta/man/b]]")] }

/-- The same primary registry with the iteration order of `p1`, `p2` swapped. -/
def c2StB : CrawlState :=
  { rcs := [("rc://en/ta/man/p2", c2Primary "rc://en/ta/man/p2" "[[rc://en/ta/man/b]]"),
            ("rc://en/ta/man/p1", c2Primary "rc://en/ta/man/p1" "[[rc://en/ta/man/a]]")] }

/-- A resolved article record with a body, used by rewriter fixtures. -/
def rcResolved : RcRecord :=
  { rc_link := "rc://x", resource := "ta", linking_level := 1, article := "<p>b</p>",
    article_id := "x-id", title := "X Title" }

/-! # Theorems

First a toolbox of lemmas about the association-list operations, then one
theorem per specification claim (with its witness or counterexample). -/

theorem lookupA_append_of_none {α : Type} {l : List (String × α)} {key : String}
    (h : lookupA l key = none) (l' : List (String × α)) :
    lookupA (l ++ l') key = lookupA l' key := by
  induction l with
  | nil => rfl
  | cons p rest ih =>
      obtain ⟨k, v⟩ := p
      by_cases hk : k = key
      · simp [lookupA, hk] at h
      · simp only [lookupA, hk, if_neg hk, List.cons_append] at h ⊢
        exact ih h

theorem lookupA_append_of_some {α : Type} {l : List (String × α)} {key : String} {v : α}
    (h : lookupA l key = some v) (l' : List (String × α)) :
    lookupA (l ++ l') key = some v := by
  induction l with
  | nil => simp [lookupA] at h
  | cons p rest ih =>
      obtain ⟨k, w⟩ := p
      by_cases hk : k = key
      · simp only [lookupA, if_pos hk] at h
        simp [lookupA, hk, h]
      · simp only [lookupA, if_neg hk, List.cons_append] at h ⊢
        exact ih h

theorem lookupA_updateA {α : Type} (l : List (String × α)) (k : String) (f : α → α)
    (key : String) :
    lookupA (updateA l k f) key =
      if key = k then (lookupA l key).map f else lookupA l key := by
  induction l with
  | nil => simp [lookupA, updateA]
  | cons p rest ih =>
      obtain ⟨k', v⟩ := p
      by_cases hk : k' = k
      · subst hk
        by_cases hkey : k' = key
        · subst hkey; simp [updateA, lookupA]
        · have hkey' : ¬ key = k' := fun h => hkey h.symm
          simp [updateA, lookupA, hkey, hkey', ih]
      · by_cases hkey : k' = key
        · subst hkey
          simp [updateA, lookupA, hk]
        · simp only [updateA, if_neg hk, lookupA, if_neg hkey]
          exact ih

theorem keysA_updateA {α : Type} (l : List (String × α)) (k : String) (f : α → α) :
    keysA (updateA l k f) = keysA l := by
  induction l with
  | nil => rfl
  | cons p rest ih =>
      obtain ⟨k', v⟩ := p
      by_cases hk : k' = k
      · simp [updateA, hk, keysA]
      · simp only [updateA, if_neg hk, keysA, List.map_cons, List.cons.injEq, true_and]
        exact ih

theorem mem_updateA {α : Type} {l : List (String × α)} {k : String} {f : α → α}
    {p : String × α} :
    p ∈ updateA l k f → p ∈ l ∨ ∃ v, (k, v) ∈ l ∧ p = (k, f v) := by
  induction l with
  | nil => intro h; simp [updateA] at h
  | cons q rest ih =>
      intro h
      obtain ⟨k', v⟩ := q
      by_cases hk : k' = k
      · subst hk
        rw [updateA, if_pos rfl] at h
        rcases List.mem_cons.mp h with h | h
        · exact Or.inr ⟨v, List.mem_cons_self _ _, h⟩
        · exact Or.inl (List.mem_cons_of_mem _ h)
      · rw [updateA, if_neg hk] at h
        rcases List.mem_cons.mp h with h | h
        · exact Or.inl (h ▸ List.mem_cons_self _ _)
        · rcases ih h with h' | ⟨w, hw, hp⟩
          · exact Or.inl (List.mem_cons_of_mem _ h')
          · exact Or.inr ⟨w, List.mem_cons_of_mem _ hw, hp⟩

theorem lookupA_setA {α : Type} (l : List (String × α)) (k : String) (v : α)
    (key : String) :
    lookupA (setA l k v) key = if key = k then some v else lookupA l key := by
  induction l with
  | nil =>
      by_cases hkey : key = k
      · simp [setA, lookupA, hkey]
      · have hkey' : ¬ k = key := fun h => hkey h.symm
        simp [setA, lookupA, hkey, hkey']
  | cons p rest ih =>
      obtain ⟨k', w⟩ := p
      by_cases hk : k' = k
      · subst hk
        by_cases hkey : key = k'
        · simp [setA, lookupA, hkey]
        · have hkey' : ¬ k' = key := fun h => hkey h.symm
          simp [setA, lookupA, hkey, hkey', ih]
      · by_cases hkey : k' = key
        · subst hkey
          simp [setA, lookupA, hk]
        · simp only [setA, if_neg hk, lookupA, if_neg hkey]
          exact ih

theorem lookupA_of_hasEntry {bl : BadLinks} {s t : String} (h : hasEntry bl s t = true) :
    ∃ inner, lookupA bl s = some inner ∧ (lookupA inner t).isSome = true := by
  unfold hasEntry at h
  cases hbs : lookupA bl s with
  | none => rw [hbs] at h; simp [lookupA] at h
  | some inner => rw [hbs] at h; exact ⟨inner, rfl, by simpa using h⟩

theorem add_bad_link_of_hasEntry {bl : BadLinks} {s t : String}
    (h : hasEntry bl s t = true) : add_bad_link bl (some s) t none = bl := by
  obtain ⟨inner, hbs, hit⟩ := lookupA_of_hasEntry h
  have hin : (lookupA inner t).isNone = false := by
    cases hlk : lookupA inner t with
    | none => rw [hlk] at hit; simp at hit
    | some v => rfl
  simp [add_bad_link, hbs, hin]

theorem hasEntry_updateA_setA {bl1 : BadLinks} {s' t' : String} {inner}
    (h1 : lookupA bl1 s' = some inner) (hit : (lookupA inner t').isSome = true)
    (s t : String) (fix : Option String) :
    hasEntry (updateA bl1 s (fun m => setA m t fix)) s' t' = true := by
  unfold hasEntry
  rw [lookupA_updateA]
  by_cases hss : s' = s
  · rw [if_pos hss, h1]
    simp only [Option.map_some', Option.getD_some, lookupA_setA]
    by_cases htt : t' = t
    · simp [htt]
    · simpa [htt] using hit
  · rw [if_neg hss, h1]
    simpa using hit

theorem hasEntry_add_bad_link_self (bl : BadLinks) (s t : String) (fix : Option String) :
    hasEntry (add_bad_link bl (some s) t fix) s t = true := by
  cases hbs : lookupA bl s with
  | some inner =>
      by_cases hc : ((lookupA inner t).isNone || fix.isSome) = true
      · have hres : add_bad_link bl (some s) t fix = updateA bl s (fun m => setA m t fix) := by
          simp [add_bad_link, hbs, hc]
        rw [hres]
        unfold hasEntry
        rw [lookupA_updateA, if_pos rfl, hbs]
        simp [lookupA_setA]
      · have hres : add_bad_link bl (some s) t fix = bl := by
          simp only [Bool.or_eq_true, not_or, Bool.not_eq_true] at hc
          simp [add_bad_link, hbs, hc.1, hc.2]
        rw [hres]
        simp only [Bool.or_eq_true, not_or, Bool.not_eq_true] at hc
        unfold hasEntry
        rw [hbs]
        cases hlk : lookupA inner t with
        | none => rw [hlk] at hc; simp at hc
        | some v => simp [hlk]
  | none =>
      have hb1 : lookupA (bl ++ [(s, [])]) s = some [] := by
        rw [lookupA_append_of_none hbs]; simp [lookupA]
      have hres : add_bad_link bl (some s) t fix
          = updateA (bl ++ [(s, [])]) s (fun m => setA m t fix) := by
        simp [add_bad_link, hbs, hb1, lookupA]
      rw [hres]
      unfold hasEntry
      rw [lookupA_updateA, if_pos rfl, hb1]
      simp [lookupA_setA]

theorem hasEntry_add_bad_link_mono {bl : BadLinks} {s' t' : String}
    (src : Option String) (t : String) (fix : Option String)
    (h : hasEntry bl s' t' = true) :
    hasEntry (add_bad_link bl src t fix) s' t' = true := by
  obtain ⟨inner, hbs, hit⟩ := lookupA_of_hasEntry h
  cases src with
  | none => exact h
  | some s =>
      cases hs : lookupA bl s with
      | some innerS =>
          by_cases hc : ((lookupA innerS t).isNone || fix.isSome) = true
          · have hres : add_bad_link bl (some s) t fix
                = updateA bl s (fun m => setA m t fix) := by
              simp [add_bad_link, hs, hc]
            rw [hres]
            exact hasEntry_updateA_setA hbs hit s t fix
          · have hres : add_bad_link bl (some s) t fix = bl := by
              simp only [Bool.or_eq_true, not_or, Bool.not_eq_true] at hc
              simp [add_bad_link, hs, hc.1, hc.2]
            rw [hres]
            exact h
      | none =>
          have hb1 : lookupA (bl ++ [(s, [])]) s = some [] := by
            rw [lookupA_append_of_none hs]; simp [lookupA]
          have hres : add_bad_link bl (some s) t fix
              = updateA (bl ++ [(s, [])]) s (fun m => setA m t fix) := by
            simp [add_bad_link, hs, hb1, lookupA]
          rw [hres]
          exact hasEntry_updateA_setA (lookupA_append_of_some hbs _) hit s t fix

theorem entryVal_add_bad_link_fix (bl : BadLinks) (s t fx : String) :
    entryVal (add_bad_link bl (some s) t (some fx)) s t = some (some fx) := by
  have main : ∀ (bl1 : BadLinks) (inner : List (String × Option String)),
      lookupA bl1 s = some inner →
      entryVal (updateA bl1 s (fun m => setA m t (some fx))) s t = some (some fx) := by
    intro bl1 inner h1
    unfold entryVal
    rw [lookupA_updateA, if_pos rfl, h1]
    simp [lookupA_setA]
  cases hbs : lookupA bl s with
  | some inner =>
      have hres : add_bad_link bl (some s) t (some fx)
          = updateA bl s (fun m => setA m t (some fx)) := by
        simp [add_bad_link, hbs]
      rw [hres]
      exact main bl inner hbs
  | none =>
      have hb1 : lookupA (bl ++ [(s, [])]) s = some [] := by
        rw [lookupA_append_of_none hbs]; simp [lookupA]
      have hres : add_bad_link bl (some s) t (some fx)
          = updateA (bl ++ [(s, [])]) s (fun m => setA m t (some fx)) := by
        simp [add_bad_link, hbs, hb1]
      rw [hres]
      exact main _ [] hb1

theorem mem_keysA_iff {α : Type} {l : List (String × α)} {key : String} :
    key ∈ keysA l ↔ (lookupA l key).isSome := by
  induction l with
  | nil => simp [keysA, lookupA]
  | cons p rest ih =>
      obtain ⟨k, v⟩ := p
      by_cases hk : k = key
      · simp [keysA, lookupA, hk]
      · simp only [keysA, List.map_cons, List.mem_cons, lookupA, if_neg hk]
        constructor
        · intro h
          rcases h with h | h
          · exact absurd h.symm hk
          · exact (ih.mp (by simpa [keysA] using h))
        · intro h
          exact Or.inr (by simpa [keysA] using ih.mpr h)

/-! ## C6: append-only ledger -/

/-- C6 counterexample: the claim says an existing ledger entry's value is never
overwritten except when a fix is supplied for a previously fix-less entry; but
`add_bad_link`'s `or fix` condition also overwrites an entry that already HAS a
fix — recording `fix1` and then `fix2` for the same pair leaves `fix2`. -/
theorem add_bad_link_overwrites_fix :
    add_bad_link (add_bad_link [] (some "src") "tgt" (some "fix1")) (some "src") "tgt"
        (some "fix2")
      = [("src", [("tgt", some "fix2")])]
    ∧ (some "fix2" : Option String) ≠ some "fix1" := by
  exact ⟨by decide, by decide⟩

/-- C6 amended: the ledger is append-only in the sense that (1) a recording
without a fix never changes an existing entry, (2) recordings never remove
entries, and (3) a recording WITH a fix always writes it — including over an
entry that already had a (possibly different) fix. -/
theorem add_bad_link_append_only :
    (∀ (bl : BadLinks) (s t : String), hasEntry bl s t = true →
        add_bad_link bl (some s) t none = bl)
    ∧ (∀ (bl : BadLinks) (src : Option String) (t : String) (fix : Option String)
        (s' t' : String), hasEntry bl s' t' = true →
        hasEntry (add_bad_link bl src t fix) s' t' = true)
    ∧ (∀ (bl : BadLinks) (s t fx : String),
        entryVal (add_bad_link bl (some s) t (some fx)) s t = some (some fx)) :=
  ⟨fun _ _ _ h => add_bad_link_of_hasEntry h,
   fun _ src t fix _ _ h => hasEntry_add_bad_link_mono src t fix h,
   entryVal_add_bad_link_fix⟩

/-- Witness for C6 amended, at concrete ledgers. -/
theorem add_bad_link_append_only_witness :
    add_bad_link [("s", [("t", none)])] (some "s") "t" none = [("s", [("t", none)])]
    ∧ hasEntry (add_bad_link [("s", [("t", none)])] (some "s2") "t2" none) "s" "t" = true
    ∧ entryVal (add_bad_link [] (some "s") "t" (some "f")) "s" "t" = some (some "f") :=
  ⟨add_bad_link_append_only.1 [("s", [("t", none)])] "s" "t" (by decide),
   add_bad_link_append_only.2.1 [("s", [("t", none)])] (some "s2") "t2" none "s" "t"
     (by decide),
   add_bad_link_append_only.2.2 [] "s" "t" "f"⟩

/-! ## C5: unresolved-link fallback and the ledger -/

/-- C5 counterexample: the text contains exactly one (well-formed) link match,
whose target is not in the registry; the rewriter falls back to the raw link
string but — contrary to the claim — creates NO Bad-Link Ledger entry: the
ledger is returned exactly as it was given (here: still empty). -/
theorem replace_rc_links_no_ledger_entry :
    rcMatches "see [[rc://en/tn/help/x]] end"
      = [{ left := some "[[", rc_link := "rc://en/tn/help/x", right := some "]]",
           title := none }]
    ∧ replace_rc_links [] [] "see [[rc://en/tn/help/x]] end"
      = .ok ("see rc://en/tn/help/x end", []) := by
  exact ⟨by decide, by decide⟩

/-- C5 amended: the rewriter replaces an unresolved match with the author's
literal text when truthy, else the raw link string, and never touches the
ledger; it is the CRAWLER that ensures (idempotently, via `add_bad_link`) a
ledger entry for targets whose fetch failed. -/
theorem replace_rc_unresolved_fallback :
    (∀ (all_rcs : List (String × RcRecord)) (m : RcMatch),
        lookupA all_rcs m.rc_link = none →
        replace_rc all_rcs m = .ok (if pyTruthy m.title then m.title.getD "" else m.rc_link))
    ∧ (∀ (all_rcs : List (String × RcRecord)) (bl : BadLinks) (text : String)
        (out : String × BadLinks),
        replace_rc_links all_rcs bl text = .ok out → out.2 = bl)
    ∧ (∀ (bl : BadLinks) (s t : String) (fix : Option String),
        hasEntry (add_bad_link bl (some s) t fix) s t = true)
    ∧ (∀ (bl : BadLinks) (s t : String),
        add_bad_link (add_bad_link bl (some s) t none) (some s) t none
          = add_bad_link bl (some s) t none) := by
  refine ⟨?_, ?_, hasEntry_add_bad_link_self, ?_⟩
  · intro all_rcs m h
    simp [replace_rc, h]
  · intro all_rcs bl text out h
    unfold replace_rc_links at h
    cases hr : renderPieces all_rcs (tokenizeRc text) with
    | ok s => rw [hr] at h; simp only [Except.map] at h; cases h; rfl
    | error e => rw [hr] at h; simp [Except.map] at h
  · intro bl s t
    exact add_bad_link_of_hasEntry (hasEntry_add_bad_link_self bl s t none)

/-- Witness for C5 amended, at a concrete unresolved match and ledger. -/
theorem replace_rc_unresolved_fallback_witness :
    replace_rc []
        { left := some "[[", rc_link := "rc://u", right := some "]]", title := none }
      = .ok (if pyTruthy (none : Option String) then (none : Option String).getD ""
             else "rc://u")
    ∧ ((""), ([("a", [("b", none)])] : BadLinks)).2 = [("a", [("b", none)])]
    ∧ hasEntry (add_bad_link [] (some "s") "t" none) "s" "t" = true
    ∧ add_bad_link (add_bad_link [] (some "s") "t" none) (some "s") "t" none
        = add_bad_link [] (some "s") "t" none :=
  ⟨replace_rc_unresolved_fallback.1 []
      { left := some "[[", rc_link := "rc://u", right := some "]]", title := none } rfl,
   replace_rc_unresolved_fallback.2.1 [] [("a", [("b", none)])] ""
      ("", [("a", [("b", none)])]) (by decide),
   replace_rc_unresolved_fallback.2.2.1 [] "s" "t" none,
   replace_rc_unresolved_fallback.2.2.2 [] "s" "t"⟩

/-! ## C10: distinct TSV row ids -/

theorem pychoice_mem (pool : List Char) (r : Nat) (h : pool ≠ []) :
    pychoice pool r ∈ pool := by
  have hl : 0 < pool.length := List.length_pos.mpr h
  have hm : r % pool.length < pool.length := Nat.mod_lt _ hl
  unfold pychoice
  rw [List.getD_eq_getElem?_getD, List.getElem?_eq_getElem hm]
  exact List.getElem_mem hm

theorem gen_attempt_valid (r1 r2 r3 r4 : Nat) : validIdFormat (gen_attempt r1 r2 r3 r4) := by
  unfold gen_attempt validIdFormat
  refine ⟨?_, ?_, ?_⟩
  · simp [List.length_asString]
  · rw [List.toList_asString]
    exact pychoice_mem ID_FIRST_CHARS r1 (by decide)
  · rw [List.toList_asString]
    intro c hc
    simp only [List.tail_cons, List.mem_cons, List.not_mem_nil, or_false] at hc
    rcases hc with h | h | h
    all_goals
      subst h
      exact pychoice_mem ID_NEXT_CHARS _ (by decide)

theorem gen_id_spec {prev : List String} :
    ∀ {rands gid rest}, gen_id prev rands = some (gid, rest) →
      gid ∉ prev ∧ validIdFormat gid := by
  intro rands
  induction rands with
  | nil => intro gid rest h; simp [gen_id] at h
  | cons r rest' ih =>
      intro gid rest h
      obtain ⟨r1, r2, r3, r4⟩ := r
      unfold gen_id at h
      by_cases hmem : gen_attempt r1 r2 r3 r4 ∈ prev
      · rw [if_pos hmem] at h
        exact ih h
      · rw [if_neg hmem] at h
        cases h
        exact ⟨hmem, gen_attempt_valid r1 r2 r3 r4⟩

theorem make_ids_spec :
    ∀ (n : Nat) (prev : List String) (rands) (ids : List String),
      make_ids prev n rands = some ids →
      ids.Nodup ∧ ∀ g ∈ ids, g ∉ prev ∧ validIdFormat g := by
  intro n
  induction n with
  | zero =>
      intro prev rands ids h
      unfold make_ids at h
      cases h
      exact ⟨List.nodup_nil, by simp⟩
  | succ n ih =>
      intro prev rands ids h
      unfold make_ids at h
      split at h
      next gid rest hg =>
        split at h
        next ids' hm =>
          cases h
          obtain ⟨hnotin, hvalid⟩ := gen_id_spec hg
          obtain ⟨hnd, hall⟩ := ih (prev ++ [gid]) rest ids' hm
          refine ⟨List.nodup_cons.mpr ⟨?_, hnd⟩, ?_⟩
          · intro hmem
            have := (hall gid hmem).1
            simp at this
          · intro g hg'
            rcases List.mem_cons.mp hg' with h | h
            · exact h ▸ ⟨hnotin, hvalid⟩
            · have := hall g h
              exact ⟨fun hp => this.1 (List.mem_append_left _ hp), this.2⟩
        next hm => simp at h
      next hg => simp at h

/-- C10: within one produced TSV file the generated row ids are pairwise
distinct (each is regenerated until it differs from every earlier one) and
each consists of a lowercase letter followed by three characters from
lowercase letters and digits. -/
theorem make_TSV_ids_distinct (rows : Nat) (rands : List (Nat × Nat × Nat × Nat))
    (ids : List String) (h : make_TSV_ids rows rands = some ids) :
    ids.Nodup ∧ ∀ g ∈ ids, validIdFormat g := by
  obtain ⟨hnd, hall⟩ := make_ids_spec rows [""] rands ids h
  exact ⟨hnd, fun g hg => (hall g hg).2⟩

/-- Witness for C10 at a concrete two-row run. -/
theorem make_TSV_ids_distinct_witness :
    (["aaaa", "aaab"] : List String).Nodup
    ∧ ∀ g ∈ (["aaaa", "aaab"] : List String), validIdFormat g :=
  make_TSV_ids_distinct 2 [(0, 0, 0, 0), (0, 0, 0, 1)] ["aaaa", "aaab"] (by decide)

/-! ## C4: rewrite totality -/

theorem piecesMatches_gap (s : String) (rest : List RcPiece) :
    piecesMatches (.gap s :: rest) = piecesMatches rest := by
  simp [piecesMatches]

theorem piecesMatches_hit (c : String) (m : RcMatch) (rest : List RcPiece) :
    piecesMatches (.hit c m :: rest) = m :: piecesMatches rest := by
  simp [piecesMatches]

theorem replace_rc_wellformed_ok (all_rcs : List (String × RcRecord)) (m : RcMatch)
    (h : wellFormedMatch m) : ∃ out, replace_rc all_rcs m = .ok out := by
  unfold replace_rc
  cases hlk : lookupA all_rcs m.rc_link with
  | none => exact ⟨_, rfl⟩
  | some rc =>
      rcases h with ⟨h1, h2⟩ | ⟨h1, h2⟩ | ⟨h1, h2, h3, h4⟩
      · rw [h1, h2]
        by_cases hl : rc.linking_level ≤ APPENDIX_LINKING_LEVEL
        · simp [pyTruthy, hl]
        · simp [pyTruthy, hl]
      · rw [h1, h2]
        by_cases hl : rc.linking_level ≤ APPENDIX_LINKING_LEVEL
        · simp [pyTruthy, hl]
        · simp [pyTruthy, hl]
      · obtain ⟨l, hl⟩ := Option.isSome_iff_exists.mp h1
        obtain ⟨r, hr⟩ := Option.isSome_iff_exists.mp h3
        rw [hl] at h2
        rw [hr] at h4
        simp only [Option.getD_some] at h2 h4
        have hlne : l ≠ "" := by
          intro he; rw [he] at h2; exact absurd h2 (by decide)
        have hrne : r ≠ "" := by
          intro he; rw [he] at h4; exact absurd h4 (by decide)
        have hlbr : (some l == some "[[") = false := by
          have hne : l ≠ "[[" := by
            intro he; rw [he] at h2; exact absurd h2 (by decide)
          simp [hne]
        rw [hl, hr]
        by_cases ha : rc.article ≠ ""
        · simp [pyTruthy, hlne, hrne, hlbr, ha]
        · simp [pyTruthy, hlne, hrne, hlbr, ha]

theorem renderPieces_wellformed (all_rcs : List (String × RcRecord)) :
    ∀ pieces : List RcPiece, (∀ m ∈ piecesMatches pieces, wellFormedMatch m) →
      ∃ outs : List String, outs.length = (piecesMatches pieces).length ∧
        renderPieces all_rcs pieces = .ok (renderWith pieces outs) := by
  intro pieces
  induction pieces with
  | nil => intro _; exact ⟨[], rfl, rfl⟩
  | cons p rest ih =>
      intro h
      cases p with
      | gap s =>
          rw [piecesMatches_gap] at h
          obtain ⟨outs, hlen, hr⟩ := ih h
          refine ⟨outs, by rw [piecesMatches_gap]; exact hlen, ?_⟩
          show Except.map (s ++ ·) (renderPieces all_rcs rest) = _
          rw [hr]
          rfl
      | hit c m =>
          rw [piecesMatches_hit] at h
          have hm : wellFormedMatch m := h m (List.mem_cons_self _ _)
          have hrest : ∀ m' ∈ piecesMatches rest, wellFormedMatch m' :=
            fun m' hm' => h m' (List.mem_cons_of_mem _ hm')
          obtain ⟨out, ho⟩ := replace_rc_wellformed_ok all_rcs m hm
          obtain ⟨outs, hlen, hr⟩ := ih hrest
          refine ⟨out :: outs, ?_, ?_⟩
          · rw [piecesMatches_hit]
            simpa using hlen
          · show (match replace_rc all_rcs m with
              | .ok out => Except.map (out ++ ·) (renderPieces all_rcs rest)
              | .error e => .error e) = _
            rw [ho, hr]
            rfl

/-- C4 amended: on text all of whose matches are well-formed (properly paired
delimiters) the rewriter raises nothing and produces exactly one output per
match — none dropped, none duplicated — interleaved with the unmatched gaps.
(The original claim's clause that malformed matches "are passed through
unchanged" is refuted by `replace_rc_links_malformed_raises`.) -/
theorem replace_rc_links_wellformed_totality (all_rcs : List (String × RcRecord))
    (bl : BadLinks) (text : String)
    (h : ∀ m ∈ rcMatches text, wellFormedMatch m) :
    ∃ outs : List String, outs.length = (rcMatches text).length ∧
      replace_rc_links all_rcs bl text = .ok (renderWith (tokenizeRc text) outs, bl) := by
  obtain ⟨outs, hlen, hr⟩ := renderPieces_wellformed all_rcs (tokenizeRc text) h
  exact ⟨outs, hlen, by unfold replace_rc_links; rw [hr]; rfl⟩

/-- Witness for C4 amended: a text with one `[[..]]` match and one bare match,
both well-formed. -/
theorem replace_rc_links_wellformed_totality_witness :
    ∃ outs : List String,
      outs.length = (rcMatches "a [[rc://x]] b rc://y c").length ∧
      replace_rc_links [("rc://x", rcResolved)] [] "a [[rc://x]] b rc://y c"
        = .ok (renderWith (tokenizeRc "a [[rc://x]] b rc://y c") outs, []) :=
  replace_rc_links_wellformed_totality [("rc://x", rcResolved)] []
    "a [[rc://x]] b rc://y c" (by decide)

/-- C4 counterexample: a malformed match (an unclosed `[[` opener) whose target
resolves to an article with a body makes `replace_rc` evaluate
`left + rc.article_id + right` with `right = None`, raising `TypeError`: the
rewrite is not total over all matches and the malformed match is not passed
through unchanged. -/
theorem replace_rc_links_malformed_raises :
    rcMatches "[[rc://x"
      = [{ left := some "[[", rc_link := "rc://x", right := none, title := none }]
    ∧ replace_rc_links [("rc://x", rcResolved)] [] "[[rc://x" = .error .typeError := by
  exact ⟨by decide, by decide⟩

/-! ## C7: longest-phrase-first highlighting -/

/-- C7 counterexample: with phrases `["the Lord", "the Lord God"]` both the
longer phrase is wrapped AND the shorter phrase is wrapped again as a stray
partial match nested inside the longer one's occurrence, because each phrase
is re-matched against the already-rewritten text (the `(?![^<]*>)` lookahead
only excludes positions inside tags, not inside already-inserted highlight
spans). -/
theorem highlight_nested_stray_wrap :
    highlight_text_with_phrases "Then the Lord God said" ["the Lord", "the Lord God"]
      = "Then <span class=\"highlight\"><span class=\"highlight\">the Lord</span> God</span> said"
    ∧ highlight_text_with_phrases "Then the Lord God said" ["the Lord", "the Lord God"]
      ≠ "Then <span class=\"highlight\">the Lord God</span> said" := by
  exact ⟨by decide, by decide⟩

/-- C7 amended: the highlighter processes phrases longest-first (a stable
length-descending sort) and wraps the first occurrence (outside HTML tags) of
each phrase in the CURRENT text in emphasis markup; a longer phrase containing
a shorter one is therefore wrapped first, but the shorter phrase is then
re-matched against the rewritten text and may be wrapped as a nested span
inside the longer phrase's occurrence rather than skipped. -/
theorem highlight_longest_first (ps : List String) (text phrase : String)
    (before after : List Char)
    (h1 : splitEllipsisParts phrase = [phrase]) (h2 : pyStripEmpty phrase = false)
    (h3 : findSplitGo phrase.toList [] text.toList = some (before, after)) :
    List.Sorted (fun a b => b.length ≤ a.length) (sortPhrasesDesc ps)
    ∧ List.Perm (sortPhrasesDesc ps) ps
    ∧ highlight_text_with_phrases text ps
        = (sortPhrasesDesc ps).foldl
            (fun cur q => let nw := highlight_text cur q; if nw ≠ cur then nw else cur) text
    ∧ highlight_text text phrase
        = before.asString ++ wrapSpan "highlight" phrase ++ after.asString := by
  refine ⟨List.sorted_insertionSort _ _, List.perm_insertionSort _ _, rfl, ?_⟩
  unfold highlight_text
  rw [h1]
  simp only [List.length_cons, List.length_nil, Nat.zero_add, gt_iff_lt, Nat.lt_irrefl,
    if_false]
  rw [highlightParts, if_neg (by rw [h2]; exact Bool.false_ne_true), h3]
  simp [highlightParts, String.append_assoc]

/-- Witness for C7 amended, at the spec's own example. -/
theorem highlight_longest_first_witness :
    List.Sorted (fun a b => b.length ≤ a.length)
      (sortPhrasesDesc ["the Lord", "the Lord God"])
    ∧ List.Perm (sortPhrasesDesc ["the Lord", "the Lord God"]) ["the Lord", "the Lord God"]
    ∧ highlight_text_with_phrases "He praised the Lord God." ["the Lord", "the Lord God"]
        = (sortPhrasesDesc ["the Lord", "the Lord God"]).foldl
            (fun cur q => let nw := highlight_text cur q; if nw ≠ cur then nw else cur)
            "He praised the Lord God."
    ∧ highlight_text "He praised the Lord God." "the Lord God"
        = ("He praised ".toList).asString ++ wrapSpan "highlight" "the Lord God"
            ++ (".".toList).asString :=
  highlight_longest_first ["the Lord", "the Lord God"] "He praised the Lord God."
    "the Lord God" "He praised ".toList ".".toList (by decide) (by decide) (by decide)

/-! ## C9: deterministic, sorted bad-link report -/

theorem pysorted_eq_of_perm {l₁ l₂ : List String} (h : List.Perm l₁ l₂) :
    pysorted l₁ = pysorted l₂ :=
  List.eq_of_perm_of_sorted
    ((List.perm_insertionSort _ _).trans (h.trans (List.perm_insertionSort _ _).symm))
    (List.sorted_insertionSort _ _) (List.sorted_insertionSort _ _)

/-- C9: the emitted bad-link report body is determined by the ledger's
contents alone — entries are listed sorted by referencing link and, within
one referencing link, by target link, so two ledgers holding the same entries
in different recording orders produce identical report bodies; each line shows
the target and, when truthy, the suggested replacement. -/
theorem save_bad_links_deterministic (bl₁ bl₂ : BadLinks)
    (hk : List.Perm (keysA bl₁) (keysA bl₂))
    (hin : ∀ s ∈ keysA bl₁, List.Perm (innerKeys bl₁ s) (innerKeys bl₂ s) ∧
        ∀ t ∈ innerKeys bl₁ s, entryVal bl₁ s t = entryVal bl₂ s t) :
    save_bad_links_body bl₁ = save_bad_links_body bl₂ := by
  have hlist : bad_links_list_html bl₁ = bad_links_list_html bl₂ := by
    unfold bad_links_list_html
    rw [pysorted_eq_of_perm hk]
    refine congrArg String.join (List.map_congr_left ?_)
    intro s hs
    have hs₁ : s ∈ keysA bl₁ := by
      rw [hk.mem_iff]
      simpa [pysorted, List.mem_insertionSort] using hs
    obtain ⟨hip, hiv⟩ := hin s hs₁
    rw [pysorted_eq_of_perm hip]
    refine congrArg String.join (List.map_congr_left ?_)
    intro t ht
    have ht₁ : t ∈ innerKeys bl₁ s := by
      rw [hip.mem_iff]
      simpa [pysorted, List.mem_insertionSort] using ht
    rw [hiv t ht₁]
  unfold save_bad_links_body
  cases hbl : bl₁ with
  | nil =>
      have h2 : keysA bl₂ = [] := by
        have := hk.symm
        rw [hbl] at this
        exact this.eq_nil
      have : bl₂ = [] := by
        cases bl₂ with
        | nil => rfl
        | cons p r => simp [keysA] at h2
      rw [this]
  | cons p r =>
      have h2 : bl₂ ≠ [] := by
        intro he
        rw [he] at hk
        rw [hbl] at hk
        have := hk.eq_nil
        simp [keysA] at this
      have h1e : (bl₁.isEmpty) = false := by rw [hbl]; rfl
      have h2e : (bl₂.isEmpty) = false := by
        cases bl₂ with
        | nil => exact absurd rfl h2
        | cons q r' => rfl
      rw [← hbl] at *
      rw [h1e, h2e]
      simp only [Bool.false_eq_true, if_false]
      rw [hlist]

/-- Witness for C9: the same three entries recorded in two different orders. -/
theorem save_bad_links_deterministic_witness :
    save_bad_links_body [("s2", [("t2", none), ("t1", some "f")]), ("s1", [("t", none)])]
      = save_bad_links_body [("s1", [("t", none)]), ("s2", [("t1", some "f"), ("t2", none)])] :=
  save_bad_links_deterministic
    [("s2", [("t2", none), ("t1", some "f")]), ("s1", [("t", none)])]
    [("s1", [("t", none)]), ("s2", [("t1", some "f"), ("t2", none)])]
    (by decide) (by decide)

/-! ## C8: TOC owner resolution is broken -/

/-- C8: the claim says every section heading resolves to its owning article
record via `get_rc_by_article_id`; but the source iterates `self.all_rcs` — a
dict, which yields its KEYS — and tuple-unpacks each canonical-link string, so
the call raises `ValueError` on its first iteration whenever the registry is
non-empty (and returns Python `None` when it is empty, so no heading ever
resolves).  Compare the correct `for rc_link, rc in self.rcs.items():` used at
line 635. -/
theorem get_rc_by_article_id_raises :
    get_rc_by_article_id [("rc://en/ta/man/translate/figs-metaphor", rcResolved)]
        "figs-metaphor" = .error .valueError
    ∧ get_rc_by_article_id [("ab", rcResolved)] "figs-metaphor" = .error .attributeError
    ∧ get_rc_by_article_id [] "figs-metaphor" = .ok none := by
  exact ⟨by decide, by decide, rfl⟩

/-! ## The crawler: bridges between the gas-driven recursion and the source's
guard-shaped recursion -/

/-- The source's entry guard (line 639): a call on a source whose linking
level exceeds `APPENDIX_LINKING_LEVEL + 1` returns at once. -/
theorem crawl_ta_tw_deep_linking_guard (alevel : Nat) (lang : String)
    (env : String → Option String) (source : RcRecord) (st : CrawlState)
    (h : source.linking_level > alevel + 1) :
    crawl_ta_tw_deep_linking alevel lang env source st = st := by
  unfold crawl_ta_tw_deep_linking
  have hz : alevel + 2 - source.linking_level = 0 := by omega
  rw [hz]
  rfl

/-- `crawl_ta_tw_deep_linking` satisfies exactly the recurrence of the Python
source: guard, then the per-link loop over the body's links. -/
theorem crawl_ta_tw_deep_linking_eq (alevel : Nat) (lang : String)
    (env : String → Option String) (source : RcRecord) (st : CrawlState) :
    crawl_ta_tw_deep_linking alevel lang env source st =
      if source.linking_level > alevel + 1 then st
      else
        crawlLinksAux lang env (crawlGo lang env (alevel + 1 - source.linking_level))
          source (findRcLinks source.article) st := by
  unfold crawl_ta_tw_deep_linking
  by_cases h : source.linking_level > alevel + 1
  · rw [if_pos h]
    have hz : alevel + 2 - source.linking_level = 0 := by omega
    rw [hz]
    rfl
  · rw [if_neg h]
    have hs : alevel + 2 - source.linking_level = (alevel + 1 - source.linking_level) + 1 := by
      omega
    rw [hs]
    rfl

/-- The recursive call on a newly discovered article (linking level
`source + 1`) is again `crawl_ta_tw_deep_linking`. -/
theorem crawlGo_child_eq (alevel : Nat) (lang : String) (env : String → Option String)
    (rc : RcRecord) (st : CrawlState) (sl : Nat) (h : rc.linking_level = sl + 1) :
    crawlGo lang env (alevel + 1 - sl) rc st = crawl_ta_tw_deep_linking alevel lang env rc st := by
  unfold crawl_ta_tw_deep_linking
  rw [h]
  have : alevel + 1 - sl = alevel + 2 - (sl + 1) := by omega
  rw [this]

theorem addReference_linking_level (r : RcRecord) (s : String) :
    (addReference r s).linking_level = r.linking_level := by
  unfold addReference; split <;> rfl

theorem addReference_article (r : RcRecord) (s : String) :
    (addReference r s).article = r.article := by
  unfold addReference; split <;> rfl

theorem addReference_mem (r : RcRecord) (s : String) : s ∈ (addReference r s).references := by
  unfold addReference
  split
  next h => exact h
  next h => simp

theorem addReference_sup (r : RcRecord) (s x : String) (hx : x ∈ r.references) :
    x ∈ (addReference r s).references := by
  unfold addReference
  split
  next => exact hx
  next => simp [hx]

/-! ## C3: registry disjointness -/

theorem mergeRc_disjoint {st : CrawlState} (source : RcRecord) (key : String)
    (h : stateDisjoint st) : stateDisjoint (mergeRc st source key) := by
  unfold stateDisjoint
  simp only [mergeRc]
  split
  · dsimp only
    intro k hk
    rw [keysA_updateA] at hk
    exact h k hk
  · dsimp only
    intro k hk
    rw [lookupA_updateA]
    have hn := h k hk
    rw [hn]
    split <;> rfl

theorem insert_disjoint {st : CrawlState} {k0 : String} {rcF : RcRecord}
    (hr : lookupA st.rcs k0 = none) (h : stateDisjoint st) :
    stateDisjoint { st with appendix_rcs := st.appendix_rcs ++ [(k0, rcF)] } := by
  intro k hk
  have hnone : lookupA st.appendix_rcs k = none := h k hk
  rw [lookupA_append_of_none hnone]
  by_cases he : k0 = k
  · subst he
    have : (lookupA st.rcs k0).isSome := mem_keysA_iff.mp hk
    rw [hr] at this
    simp at this
  · simp [lookupA, he]

theorem crawlLinksAux_disjoint (lang : String) (env : String → Option String)
    (recur : RcRecord → CrawlState → CrawlState) (source : RcRecord)
    (hrec : ∀ rc st, stateDisjoint st → stateDisjoint (recur rc st)) :
    ∀ (links : List String) (st : CrawlState),
      stateDisjoint st → stateDisjoint (crawlLinksAux lang env recur source links st) := by
  intro links
  induction links with
  | nil => intro st hst; exact hst
  | cons link rest ih =>
      intro st hst
      simp only [crawlLinksAux]
      by_cases hmem : ((lookupA st.rcs (mkRc lang link (source.linking_level + 1)).rc_link).isSome
          || (lookupA st.appendix_rcs (mkRc lang link (source.linking_level + 1)).rc_link).isSome)
          = true
      · rw [if_pos hmem]
        exact ih _ (mergeRc_disjoint source _ hst)
      · rw [if_neg hmem]
        split
        · exact ih st hst
        · by_cases hart : ((env (mkRc lang link (source.linking_level + 1)).rc_link).getD "") ≠ ""
          · rw [if_pos hart]
            apply ih
            apply hrec
            have hr : lookupA st.rcs (mkRc lang link (source.linking_level + 1)).rc_link
                = none := by
              simp only [Bool.or_eq_true, not_or, Bool.not_eq_true] at hmem
              cases hl : lookupA st.rcs (mkRc lang link (source.linking_level + 1)).rc_link with
              | none => rfl
              | some v => rw [hl] at hmem; simp at hmem
            exact insert_disjoint hr hst
          · rw [if_neg hart]
            apply ih
            intro k hk
            exact hst k hk

theorem crawlGo_disjoint (lang : String) (env : String → Option String) :
    ∀ (gas : Nat) (source : RcRecord) (st : CrawlState),
      stateDisjoint st → stateDisjoint (crawlGo lang env gas source st) := by
  intro gas
  induction gas with
  | zero => intro source st hst; exact hst
  | succ g ih =>
      intro source st hst
      exact crawlLinksAux_disjoint lang env _ source (fun rc st' h' => ih rc st' h') _ st hst

/-- C3: no canonical link string is simultaneously a key of both the primary
mapping (`rcs`) and the appendix mapping (`appendix_rcs`): both the recursive
crawl of one source article and the whole appendix crawl preserve the
disjointness of the two mappings (the only appendix insertion, line 668, is
guarded by absence from both mappings at line 647, and merges never change the
key sets). -/
theorem crawl_preserves_registry_disjointness (alevel : Nat) (lang : String)
    (env : String → Option String) (source : RcRecord) (st : CrawlState) :
    (stateDisjoint st → stateDisjoint (crawl_ta_tw_deep_linking alevel lang env source st))
    ∧ (stateDisjoint st → stateDisjoint (get_appendix_rcs alevel lang env st)) := by
  constructor
  · intro hst
    exact crawlGo_disjoint lang env _ source st hst
  · intro hst
    unfold get_appendix_rcs
    have main : ∀ (ks : List String) (s : CrawlState), stateDisjoint s →
        stateDisjoint (ks.foldl
          (fun s k =>
            match lookupA s.rcs k with
            | some r => crawl_ta_tw_deep_linking alevel lang env r s
            | none => s) s) := by
      intro ks
      induction ks with
      | nil => intro s hs; exact hs
      | cons k rest ih =>
          intro s hs
          simp only [List.foldl_cons]
          cases hl : lookupA s.rcs k with
          | some r =>
              exact ih _ (crawlGo_disjoint lang env _ r s hs)
          | none => exact ih s hs
    exact main (keysA st.rcs) st hst

/-- Witness for C3 on a concrete initially disjoint registry. -/
theorem crawl_preserves_registry_disjointness_witness :
    stateDisjoint (crawl_ta_tw_deep_linking 1 "en" c2Env
      (c2Primary "rc://en/ta/man/p1" "[[rc://en/ta/man/a]]") c2StA)
    ∧ stateDisjoint (get_appendix_rcs 1 "en" c2Env c2StA) :=
  ⟨(crawl_preserves_registry_disjointness 1 "en" c2Env
      (c2Primary "rc://en/ta/man/p1" "[[rc://en/ta/man/a]]") c2StA).1 (by decide),
   (crawl_preserves_registry_disjointness 1 "en" c2Env
      (c2Primary "rc://en/ta/man/p1" "[[rc://en/ta/man/a]]") c2StA).2 (by decide)⟩

/-! ## C1: bounded-depth crawling -/

theorem mergeRc_level_bound {st : CrawlState} {B : Nat} (source : RcRecord) (key : String)
    (hsrc : source.linking_level + 1 ≤ B)
    (hst : ∀ p ∈ st.appendix_rcs, (Prod.snd p).linking_level ≤ B) :
    ∀ p ∈ (mergeRc st source key).appendix_rcs, (Prod.snd p).linking_level ≤ B := by
  simp only [mergeRc]
  split
  · dsimp only
    exact hst
  · dsimp only
    intro p hp
    rcases mem_updateA hp with h | ⟨v, hv, hpv⟩
    · exact hst p h
    · subst hpv
      simp only [addReference_linking_level]
      split
      · exact hsrc
      · exact hst (key, v) hv

theorem crawlLinksAux_level_bound (alevel : Nat) (lang : String)
    (env : String → Option String) (recur : RcRecord → CrawlState → CrawlState)
    (source : RcRecord) (hsrc : source.linking_level + 1 ≤ alevel + 2)
    (hrec : ∀ rc st, rc.linking_level = source.linking_level + 1 →
        (∀ p ∈ st.appendix_rcs, (Prod.snd p).linking_level ≤ alevel + 2) →
        ∀ p ∈ (recur rc st).appendix_rcs, (Prod.snd p).linking_level ≤ alevel + 2) :
    ∀ (links : List String) (st : CrawlState),
      (∀ p ∈ st.appendix_rcs, (Prod.snd p).linking_level ≤ alevel + 2) →
      ∀ p ∈ (crawlLinksAux lang env recur source links st).appendix_rcs,
        (Prod.snd p).linking_level ≤ alevel + 2 := by
  intro links
  induction links with
  | nil => intro st hst; exact hst
  | cons link rest ih =>
      intro st hst
      simp only [crawlLinksAux]
      by_cases hmem : ((lookupA st.rcs (mkRc lang link (source.linking_level + 1)).rc_link).isSome
          || (lookupA st.appendix_rcs (mkRc lang link (source.linking_level + 1)).rc_link).isSome)
          = true
      · rw [if_pos hmem]
        exact ih _ (mergeRc_level_bound source _ hsrc hst)
      · rw [if_neg hmem]
        split
        · exact ih st hst
        · by_cases hart : ((env (mkRc lang link (source.linking_level + 1)).rc_link).getD "") ≠ ""
          · rw [if_pos hart]
            apply ih
            apply hrec
            · rfl
            · intro p hp
              rcases List.mem_append.mp hp with h | h
              · exact hst p h
              · simp only [List.mem_singleton] at h
                subst h
                simpa [mkRc] using hsrc
          · rw [if_neg hart]
            exact ih _ hst

theorem crawlGo_level_bound (alevel : Nat) (lang : String) (env : String → Option String) :
    ∀ (gas : Nat) (source : RcRecord) (st : CrawlState),
      source.linking_level + gas ≤ alevel + 2 →
      (∀ p ∈ st.appendix_rcs, (Prod.snd p).linking_level ≤ alevel + 2) →
      ∀ p ∈ (crawlGo lang env gas source st).appendix_rcs,
        (Prod.snd p).linking_level ≤ alevel + 2 := by
  intro gas
  induction gas with
  | zero => intro source st _ hst; exact hst
  | succ g ih =>
      intro source st hg hst
      exact crawlLinksAux_level_bound alevel lang env _ source (by omega)
        (fun rc st' hlev hst' => ih rc st' (by rw [hlev]; omega) hst') _ st hst

/-- C1: the crawler expands a source article's own body links only while its
linking level is within `APPENDIX_LINKING_LEVEL + 1` — a call on an article
beyond that bound returns the state unchanged (nothing fetched, nothing
inserted, no ledger entry) — and consequently every record ever inserted into
the appendix mapping lies at linking level at most `APPENDIX_LINKING_LEVEL + 2`
(links that would resolve deeper are never fetched). -/
theorem crawl_appendix_depth_bound (alevel : Nat) (lang : String)
    (env : String → Option String) (source : RcRecord) (st : CrawlState) :
    (source.linking_level > alevel + 1 →
      crawl_ta_tw_deep_linking alevel lang env source st = st)
    ∧ ((∀ p ∈ st.appendix_rcs, (Prod.snd p).linking_level ≤ alevel + 2) →
        ∀ p ∈ (crawl_ta_tw_deep_linking alevel lang env source st).appendix_rcs,
          (Prod.snd p).linking_level ≤ alevel + 2) := by
  constructor
  · intro h
    exact crawl_ta_tw_deep_linking_guard alevel lang env source st h
  · intro hst
    unfold crawl_ta_tw_deep_linking
    by_cases h : source.linking_level ≤ alevel + 2
    · exact crawlGo_level_bound alevel lang env _ source st (by omega) hst
    · have hz : alevel + 2 - source.linking_level = 0 := by omega
      rw [hz]
      exact hst

/-- Witness for C1: a source article one hop beyond the bound is not expanded,
and the appendix level bound holds on the result. -/
theorem crawl_appendix_depth_bound_witness :
    crawl_ta_tw_deep_linking 1 "en" c2Env
      { rc_link := "rc://en/ta/man/deep", resource := "ta", linking_level := 3,
        article := "[[rc://en/ta/man/a]]" } c2StA = c2StA
    ∧ ∀ p ∈ (crawl_ta_tw_deep_linking 1 "en" c2Env
        { rc_link := "rc://en/ta/man/deep", resource := "ta", linking_level := 3,
          article := "[[rc://en/ta/man/a]]" } c2StA).appendix_rcs,
        (Prod.snd p).linking_level ≤ 3 :=
  ⟨(crawl_appendix_depth_bound 1 "en" c2Env
      { rc_link := "rc://en/ta/man/deep", resource := "ta", linking_level := 3,
        article := "[[rc://en/ta/man/a]]" } c2StA).1 (by decide),
   (crawl_appendix_depth_bound 1 "en" c2Env
      { rc_link := "rc://en/ta/man/deep", resource := "ta", linking_level := 3,
        article := "[[rc://en/ta/man/a]]" } c2StA).2 (by decide)⟩

/-! ## C2: the merge rule and the failure of global depth minimality -/

/-- C2 counterexample: the same primary registry crawled in two different
iteration orders stores two different depths for the same appendix article
`c` (3 versus 2), so the stored depth is order-dependent and cannot always
equal the minimum over all discovered paths: merged articles are not
re-expanded, leaving their descendants' depths stale. -/
theorem crawl_depth_order_dependent :
    (lookupA (get_appendix_rcs 1 "en" c2Env c2StA).appendix_rcs
        "rc://en/ta/man/c").map RcRecord.linking_level = some 3
    ∧ (lookupA (get_appendix_rcs 1 "en" c2Env c2StB).appendix_rcs
        "rc://en/ta/man/c").map RcRecord.linking_level = some 2
    ∧ List.Perm (keysA c2StA.rcs) (keysA c2StB.rcs)
    ∧ (∀ k ∈ keysA c2StA.rcs, lookupA c2StA.rcs k = lookupA c2StB.rcs k)
    ∧ (3 : Nat) ≠ 2 := by
  exact ⟨by decide, by decide, by decide, by decide, by decide⟩

/-- C2 amended: the local merge rule holds — when a discovered link is already
a key of either mapping, processing it updates the stored record in place to
depth `min(existing, source.depth + 1)`, appends the source as a
back-reference (back-references only accumulate), leaves the body unchanged,
fetches nothing, and inserts nothing — but (per
`crawl_depth_order_dependent`) the merged article's body is not re-expanded,
so stored depths of its descendants may exceed the minimum over discovered
paths and may depend on traversal order. -/
theorem lookupRc_eq_rcs {st : CrawlState} {k : String} {r : RcRecord}
    (h : lookupA st.rcs k = some r) : lookupRc st k = some r := by
  unfold lookupRc
  rw [h]

theorem lookupRc_eq_app {st : CrawlState} {k : String}
    (h : lookupA st.rcs k = none) : lookupRc st k = lookupA st.appendix_rcs k := by
  unfold lookupRc
  rw [h]

theorem crawl_merge_rule (lang : String) (env : String → Option String)
    (recur : RcRecord → CrawlState → CrawlState) (source : RcRecord)
    (link : String) (rest : List String) (st : CrawlState) (old : RcRecord) (key : String)
    (hkey : key = (mkRc lang link (source.linking_level + 1)).rc_link)
    (h : lookupRc st key = some old) :
    crawlLinksAux lang env recur source (link :: rest) st
      = crawlLinksAux lang env recur source rest (mergeRc st source key)
    ∧ lookupRc (mergeRc st source key) key
        = some (addReference
            { old with linking_level := min old.linking_level (source.linking_level + 1) }
            source.rc_link)
    ∧ (mergeRc st source key).fetch_log = st.fetch_log
    ∧ keysA (mergeRc st source key).appendix_rcs = keysA st.appendix_rcs
    ∧ keysA (mergeRc st source key).rcs = keysA st.rcs
    ∧ (addReference
          { old with linking_level := min old.linking_level (source.linking_level + 1) }
          source.rc_link).article = old.article
    ∧ source.rc_link ∈ (addReference
          { old with linking_level := min old.linking_level (source.linking_level + 1) }
          source.rc_link).references
    ∧ ∀ x ∈ old.references, x ∈ (addReference
          { old with linking_level := min old.linking_level (source.linking_level + 1) }
          source.rc_link).references := by
  have hmin : (if source.linking_level + 1 < old.linking_level then source.linking_level + 1
      else old.linking_level) = min old.linking_level (source.linking_level + 1) := by
    rw [Nat.min_def]
    split <;> split <;> omega
  have hcond : ((lookupA st.rcs key).isSome || (lookupA st.appendix_rcs key).isSome) = true := by
    unfold lookupRc at h
    cases hl : lookupA st.rcs key with
    | some r => simp [hl]
    | none => simp only [hl] at h; simp [h]
  refine ⟨?_, ?_, ?_, ?_, ?_, addReference_article _ _, addReference_mem _ _,
    fun x hx => addReference_sup _ _ x hx⟩
  · simp only [crawlLinksAux]
    rw [← hkey]
    rw [if_pos hcond]
  · cases hl : lookupA st.rcs key with
    | some r =>
        have hold : r = old := by
          unfold lookupRc at h
          simp only [hl, Option.some.injEq] at h
          exact h
        subst hold
        have hm : mergeRc st source key
            = { st with rcs := updateA st.rcs key (fun q => addReference
                { q with linking_level := if source.linking_level + 1 < q.linking_level
                    then source.linking_level + 1 else q.linking_level } source.rc_link) } := by
          simp [mergeRc, hl]
        rw [hm]
        apply lookupRc_eq_rcs
        dsimp only
        rw [lookupA_updateA, if_pos rfl, hl, Option.map_some']
        rw [hmin]
    | none =>
        have happ : lookupA st.appendix_rcs key = some old := by
          unfold lookupRc at h
          simp only [hl] at h
          exact h
        have hm : mergeRc st source key
            = { st with appendix_rcs := updateA st.appendix_rcs key (fun q => addReference
                { q with linking_level := if source.linking_level + 1 < q.linking_level
                    then source.linking_level + 1 else q.linking_level } source.rc_link) } := by
          simp [mergeRc, hl]
        rw [hm]
        have hrcs : lookupA ({ st with appendix_rcs := updateA st.appendix_rcs key (fun q =>
            addReference
              { q with linking_level := if source.linking_level + 1 < q.linking_level
                  then source.linking_level + 1 else q.linking_level } source.rc_link) }
            : CrawlState).rcs key = none := hl
        rw [lookupRc_eq_app hrcs]
        dsimp only
        rw [lookupA_updateA, if_pos rfl, happ, Option.map_some']
        rw [hmin]
  · simp only [mergeRc]
    split <;> rfl
  · simp only [mergeRc]
    split
    · rfl
    · dsimp only
      rw [keysA_updateA]
  · simp only [mergeRc]
    split
    · dsimp only
      rw [keysA_updateA]
    · rfl

/-- Witness for C2 amended, merging a re-discovered article at a shallower
depth. -/
theorem crawl_merge_rule_witness :
    crawlLinksAux "en" c2Env (fun _ s => s)
        (c2Primary "rc://en/ta/man/p2" "[[rc://en/ta/man/b]]")
        ["rc://en/ta/man/b"]
        { rcs := [], appendix_rcs := [("rc://en/ta/man/b",
            { rc_link := "rc://en/ta/man/b", resource := "ta", linking_level := 2,
              article := "<p>b</p>", article_id := "en-ta-man-b" })] }
      = crawlLinksAux "en" c2Env (fun _ s => s)
          (c2Primary "rc://en/ta/man/p2" "[[rc://en/ta/man/b]]") []
          (mergeRc { rcs := [], appendix_rcs := [("rc://en/ta/man/b",
              { rc_link := "rc://en/ta/man/b", resource := "ta", linking_level := 2,
                article := "<p>b</p>", article_id := "en-ta-man-b" })] }
            (c2Primary "rc://en/ta/man/p2" "[[rc://en/ta/man/b]]") "rc://en/ta/man/b")
    ∧ lookupRc (mergeRc { rcs := [], appendix_rcs := [("rc://en/ta/man/b",
          { rc_link := "rc://en/ta/man/b", resource := "ta", linking_level := 2,
            article := "<p>b</p>", article_id := "en-ta-man-b" })] }
          (c2Primary "rc://en/ta/man/p2" "[[rc://en/ta/man/b]]") "rc://en/ta/man/b")
        "rc://en/ta/man/b"
      = some (addReference
          { ({ rc_link := "rc://en/ta/man/b", resource := "ta", linking_level := 2,
               article := "<p>b</p>", article_id := "en-ta-man-b" } : RcRecord) with
            linking_level := min 2 ((c2Primary "rc://en/ta/man/p2"
              "[[rc://en/ta/man/b]]").linking_level + 1) }
          (c2Primary "rc://en/ta/man/p2" "[[rc://en/ta/man/b]]").rc_link) :=
  ⟨(crawl_merge_rule "en" c2Env (fun _ s => s)
      (c2Primary "rc://en/ta/man/p2" "[[rc://en/ta/man/b]]") "rc://en/ta/man/b" []
      { rcs := [], appendix_rcs := [("rc://en/ta/man/b",
          { rc_link := "rc://en/ta/man/b", resource := "ta", linking_level := 2,
            article := "<p>b</p>", article_id := "en-ta-man-b" })] }
      { rc_link := "rc://en/ta/man/b", resource := "ta", linking_level := 2,
        article := "<p>b</p>", article_id := "en-ta-man-b" }
      "rc://en/ta/man/b" (by decide) (by decide)).1,
   (crawl_merge_rule "en" c2Env (fun _ s => s)
      (c2Primary "rc://en/ta/man/p2" "[[rc://en/ta/man/b]]") "rc://en/ta/man/b" []
      { rcs := [], appendix_rcs := [("rc://en/ta/man/b",
          { rc_link := "rc://en/ta/man/b", resource := "ta", linking_level := 2,
            article := "<p>b</p>", article_id := "en-ta-man-b" })] }
      { rc_link := "rc://en/ta/man/b", resource := "ta", linking_level := 2,
        article := "<p>b</p>", article_id := "en-ta-man-b" }
      "rc://en/ta/man/b" (by decide) (by decide)).2.1⟩

end PdfConv
